import Mathlib

/-!
Verification of the psi package (a tiny PID-1 wrapper for single-process
containers) against its natural-language specification.

The Go source (psi.go) is shallowly embedded below:
pure functions become Lean functions, the supervisor event-loop body and the
reaper loop become explicit state-passing functions over event lists, and the
fallible duration parser returns Option.  Machine integers (Go int64/uint64)
are modelled as Int/Nat with the explicit 2^63 overflow checks the Go code
performs.  Real-time effects (time.Sleep, timer expiry) are modelled as
no-ops / explicit events; log output is modelled as a Bool flag where a claim
depends on whether a warning was emitted.
-/

namespace Psi

/-! ## Signals (Linux numbering, as used by the syscall package) -/

def SIGHUP : Int := 1
def SIGINT : Int := 2
def SIGQUIT : Int := 3
def SIGKILL : Int := 9
def SIGUSR1 : Int := 10
def SIGUSR2 : Int := 12
def SIGTERM : Int := 15
def SIGCHLD : Int := 17

/-- An os.Signal value: either a syscall.Signal (every signal delivered by
signal.Notify on Linux is one) or some other implementation of the interface,
identified by its String() value. -/
inductive OsSignal
  | sys (n : Int)
  | named (name : List Char)
deriving DecidableEq

/-- ASCII fragment of strings.ToUpper, enough for signal names. -/
def asciiUpper (c : Char) : Char :=
  if 97 ≤ c.toNat ∧ c.toNat ≤ 122 then Char.ofNat (c.toNat - 32) else c

def toUpper (s : List Char) : List Char := s.map asciiUpper

/-- Embeds toSyscallSignal (psi.go:229-249): a type assertion on
syscall.Signal, with a fallback on the upper-cased String() name. -/
def toSyscallSignal : OsSignal → Option Int
  | .sys n => some n
  | .named name =>
    let u := toUpper name
    if u = "SIGTERM".toList then some SIGTERM
    else if u = "SIGINT".toList then some SIGINT
    else if u = "SIGQUIT".toList then some SIGQUIT
    else if u = "SIGHUP".toList then some SIGHUP
    else if u = "SIGUSR1".toList then some SIGUSR1
    else if u = "SIGUSR2".toList then some SIGUSR2
    else none

/-- Embeds isTerminateSignal (psi.go:220-227).  The Go switch compares the
os.Signal interface value against the four syscall.Signal constants, so only a
syscall.Signal can match. -/
def isTerminateSignal : OsSignal → Bool
  | .sys n => n == SIGTERM || n == SIGINT || n == SIGQUIT || n == SIGHUP
  | .named _ => false

/-- The comparison s == syscall.SIGCHLD at psi.go:123 (interface equality,
so only a syscall.Signal can match). -/
def isSIGCHLD : OsSignal → Bool
  | .sys n => n == SIGCHLD
  | .named _ => false

/-! ## Contexts and role dispatch -/

/-- A context.Context as the worker/dispatcher use it: whether it descends
from context.WithCancel, and whether it has been cancelled. -/
structure GoContext where
  cancellable : Bool
  cancelled : Bool
deriving DecidableEq

/-- context.Background(): non-cancellable. -/
def background : GoContext := ⟨false, false⟩

/-- The marker value: const childEnvVal = "1" (psi.go:30). -/
def childEnvVal : List Char := ['1']

/-- Observable outcome of Run: either the process exits with a code (the
direct path), or control enters the worker / supervisor role (which never
return to the caller). -/
inductive RunOutcome
  | exited (code : Int)
  | worker
  | supervisor
deriving DecidableEq

/-- Embeds Run (psi.go:43-55).  marker is the value of
os.Getenv("PSI_CHILD") (empty string when unset). -/
def Run (pid : Int) (marker : List Char) (submain : GoContext → Int) : RunOutcome :=
  if marker = childEnvVal then .worker
  else if pid ≠ 1 then .exited (submain background)
  else .supervisor

/-! ## Child worker (runChild, psi.go:57-71) -/

/-- Signals subscribed at psi.go:62: SIGINT, SIGTERM, SIGQUIT, SIGHUP. -/
def termNotifySet : List Int := [SIGINT, SIGTERM, SIGQUIT, SIGHUP]

/-- The cancel function produced by context.WithCancel: idempotent, sets the
cancelled flag. -/
def cancelCtx (ctx : GoContext) : GoContext := { ctx with cancelled := true }

/-- The goroutine at psi.go:63-68: for every signal received on termCh,
call cancel(). -/
def signalHandlerLoop (ctx : GoContext) : List Int → GoContext
  | [] => ctx
  | _ :: rest => signalHandlerLoop (cancelCtx ctx) rest

/-- signal.Notify(termCh, SIGINT, SIGTERM, SIGQUIT, SIGHUP) delivers to the
channel exactly the raised signals belonging to the subscribed set. -/
def notifyFilter (raised : List Int) : List Int :=
  raised.filter fun s => termNotifySet.contains s

/-- The context the entry function observes in the worker, as a function of
the signals raised against the worker process. -/
def workerContext (raised : List Int) : GoContext :=
  signalHandlerLoop ⟨true, false⟩ (notifyFilter raised)

/-- Embeds runChild (psi.go:57-71): the process exit code is the entry
function's return value on the cancellable context, verbatim (os.Exit(code)). -/
def runChild (submain : GoContext → Int) (raised : List Int) : Int :=
  submain (workerContext raised)

/-! ## Supervisor event loop (runAsInit, psi.go:73-144) -/

/-- Supervisor state relevant to signal handling: whether startOnce has run,
and the kill timer (none = nil pointer, some d = a timer created/reset with
duration d). -/
structure SupState where
  armedOnce : Bool
  killTimer : Option Int
deriving DecidableEq

/-- Embeds startKillTimer (psi.go:100-112): create the timer with stopTimeout
when nil, otherwise stop/drain and reset it to stopTimeout. -/
def startKillTimer (stopTimeout : Int) (t : Option Int) : Option Int :=
  match t with
  | none => some stopTimeout
  | some _ => some stopTimeout

/-- Observable actions of one signal iteration of the event loop, in program
order. -/
inductive Action
  | kill (pid : Int) (sig : Int)
  | armTimer (d : Int)
deriving DecidableEq

/-- The forwarding step at psi.go:127-129: kill the child's process group
when the signal converts to a syscall.Signal, otherwise do nothing. -/
def forwardActions (childPID : Int) (s : OsSignal) : List Action :=
  match toSyscallSignal s with
  | some sig => [.kill (-childPID) sig]
  | none => []

/-- Embeds the `case s := <-allSig` branch of the supervisor loop
(psi.go:121-135): skip SIGCHLD entirely; otherwise forward to the negative of
the child's process-group id (the child is its own group leader, so the group
id is childPID), then — only for terminate-class signals, and only the first
time thanks to startOnce — arm the kill timer. -/
def stepSignal (childPID stopTimeout : Int) (st : SupState) (s : OsSignal) :
    List Action × SupState :=
  if isSIGCHLD s then ([], st)
  else if isTerminateSignal s then
    if st.armedOnce then (forwardActions childPID s, st)
    else (forwardActions childPID s ++ [.armTimer stopTimeout],
          ⟨true, startKillTimer stopTimeout st.killTimer⟩)
  else (forwardActions childPID s, st)

/-- Iterate the signal branch of the event loop over a sequence of received
signals, collecting the actions in order. -/
def runSignals (childPID stopTimeout : Int) (st : SupState) :
    List OsSignal → List Action × SupState
  | [] => ([], st)
  | s :: rest =>
    ((stepSignal childPID stopTimeout st s).1 ++
       (runSignals childPID stopTimeout
         (stepSignal childPID stopTimeout st s).2 rest).1,
     (runSignals childPID stopTimeout
       (stepSignal childPID stopTimeout st s).2 rest).2)

def isArmAction : Action → Bool
  | .armTimer _ => true
  | _ => false

def countArm (acts : List Action) : Nat := acts.countP isArmAction

/-- The initial supervisor state: startOnce unused, killTimer nil
(psi.go:98-99). -/
def initSupState : SupState := ⟨false, none⟩

/-! ## Reaper (reapUntilChildExit, psi.go:148-175) -/

/-- Linux wait status bit decoding, as in the Go syscall package:
Exited() is w&0x7F == 0. -/
def wExited (w : Nat) : Bool := w &&& 0x7F == 0

/-- Signaled() is w&0x7F != 0x7F and w&0x7F != 0. -/
def wSignaled (w : Nat) : Bool := ((w &&& 0x7F) != 0x7F) && ((w &&& 0x7F) != 0)

/-- ExitStatus() is int(w>>8)&0xFF when exited, -1 otherwise. -/
def wExitStatus (w : Nat) : Int :=
  if wExited w then (((w >>> 8) &&& 0xFF : Nat) : Int) else -1

/-- Signal() is w&0x7F when signaled, -1 otherwise. -/
def wSignal (w : Nat) : Int :=
  if wSignaled w then ((w &&& 0x7F : Nat) : Int) else -1

/-- Error outcomes of syscall.Wait4 that the reaper distinguishes. -/
inductive WaitErr
  | EINTR
  | ECHILD
  | other (errno : Nat)
deriving DecidableEq

/-- One result of a syscall.Wait4(-1, ...) call. -/
inductive WaitEvent
  | err (e : WaitErr)
  | reaped (pid : Int) (ws : Nat)
deriving DecidableEq

/-- Embeds reapUntilChildExit (psi.go:148-175) over the sequence of results
the successive Wait4 calls produce.  EINTR retries immediately; ECHILD returns
0; any other error sleeps briefly (a no-op here) and retries; a reaped pid
equal to the managed child's is translated shell-style; any other reaped pid
is discarded.  none means the event list was exhausted before the loop
returned (the real loop would keep blocking in Wait4). -/
def reapUntilChildExit (childPID : Int) : List WaitEvent → Option Int
  | [] => none
  | .err .EINTR :: rest => reapUntilChildExit childPID rest
  | .err .ECHILD :: _ => some 0
  | .err (.other _) :: rest => reapUntilChildExit childPID rest
  | .reaped pid ws :: rest =>
    if pid = childPID then
      if wExited ws then some (wExitStatus ws)
      else if wSignaled ws then some (128 + wSignal ws)
      else some 1
    else reapUntilChildExit childPID rest

/-- The translation of a managed child's wait status to the supervisor's exit
status (the ExitOutcome translation of spec section 3). -/
def exitOutcomeStatus (ws : Nat) : Int :=
  if wExited ws then wExitStatus ws
  else if wSignaled ws then 128 + wSignal ws
  else 1

/-! ## Supervisor startup (psi.go:75-84) -/

/-- log.Fatalf prints its message and then calls os.Exit(1)
(Go standard library contract). -/
def logFatalExitCode : Int := 1

inductive SupervisorStart
  | fatal (code : Int)
  | started (childPID : Int)
deriving DecidableEq

/-- Embeds the cmd.Start() error check at psi.go:82-84: on failure, log and
exit immediately via log.Fatalf; otherwise supervision proceeds with the
spawned child's pid. -/
def startManagedChild (startErr : Bool) (childPID : Int) : SupervisorStart :=
  if startErr then .fatal logFatalExitCode else .started childPID

/-! ## Stop-timeout parsing (parseStopTimeout, psi.go:191-206)

The parser delegates to the Go standard library's time.ParseDuration, which is
embedded below from its source (time/format.go).  Character comparisons are
numeric rune comparisons in Go; they are written on Char.toNat here.  The one
deliberate deviation: Go computes the fractional contribution with float64
arithmetic (uint64(float64(f) * (float64(unit)/scale))); here it is the exact
floor f*unit/scale, which can differ from Go only by sub-nanosecond float
rounding on fractional inputs. -/

/-- One step of decimal accumulation: x*10 + (c - '0'). -/
def digitStep (x : Nat) (c : Char) : Nat := x * 10 + (c.toNat - 48)

/-- Embeds leadingInt (time/format.go): consume leading decimal digits into x,
erroring (none) when x would pass 2^63. -/
def leadingIntAux (x : Nat) : List Char → Option (Nat × List Char)
  | [] => some (x, [])
  | c :: rest =>
    if c.toNat < 48 ∨ 57 < c.toNat then some (x, c :: rest)
    else if 2 ^ 63 / 10 < x then none
    else
      let y := digitStep x c
      if 2 ^ 63 < y then none
      else leadingIntAux y rest

/-- Embeds leadingFraction (time/format.go): consume digits after the decimal
point into x with scale 10^k, silently stopping the accumulation (but still
consuming digits) on overflow.  Go's float64 scale is an exact power of ten in
the relevant range and is modelled as a Nat. -/
def leadingFractionAux (x scale : Nat) (overflow : Bool) :
    List Char → Nat × Nat × List Char
  | [] => (x, scale, [])
  | c :: rest =>
    if c.toNat < 48 ∨ 57 < c.toNat then (x, scale, c :: rest)
    else if overflow then leadingFractionAux x scale overflow rest
    else if (2 ^ 63 - 1) / 10 < x then leadingFractionAux x scale true rest
    else
      let y := digitStep x c
      if 2 ^ 63 < y then leadingFractionAux x scale true rest
      else leadingFractionAux y (scale * 10) overflow rest

/-- The character class [0-9.] used by ParseDuration ('.' is 46, digits are
48-57). -/
def durDigitDot (c : Char) : Bool :=
  c.toNat == 46 || (decide (48 ≤ c.toNat) && decide (c.toNat ≤ 57))

/-- The unit table of time.ParseDuration, in nanoseconds. -/
def unitMap (u : List Char) : Option Nat :=
  if u = "ns".toList then some 1
  else if u = "us".toList then some 1000
  else if u = "µs".toList then some 1000
  else if u = "μs".toList then some 1000
  else if u = "ms".toList then some 1000000
  else if u = "s".toList then some 1000000000
  else if u = "m".toList then some 60000000000
  else if u = "h".toList then some 3600000000000
  else none

/-- The unit-consuming tail of one ParseDuration term: after the number part
(integer v, fraction f/scale, hasDigits = at least one digit seen), consume
the unit name, look it up, and combine with overflow checks as in Go. -/
def parseTermUnit (v f scale : Nat) (hasDigits : Bool) (s2 : List Char) :
    Option (Nat × List Char) :=
  if hasDigits = false then none
  else
    let u := s2.takeWhile fun c => !durDigitDot c
    let s3 := s2.dropWhile fun c => !durDigitDot c
    if u = [] then none
    else
      match unitMap u with
      | none => none
      | some unit =>
        if 2 ^ 63 / unit < v then none
        else
          let v1 := v * unit
          if 0 < f then
            let v2 := v1 + f * unit / scale
            if 2 ^ 63 < v2 then none else some (v2, s3)
          else some (v1, s3)

/-- One term of a duration expression: [0-9]*(\.[0-9]*)?unit, returning its
value in nanoseconds and the remaining input. -/
def parseTerm (s : List Char) : Option (Nat × List Char) :=
  match s with
  | [] => none
  | c0 :: _ =>
    if durDigitDot c0 = false then none
    else
      match leadingIntAux 0 s with
      | none => none
      | some (v, s1) =>
        let pre : Bool := decide (s1.length ≠ s.length)
        match s1 with
        | '.' :: t =>
          match leadingFractionAux 0 1 false t with
          | (f, scale, s2) =>
            parseTermUnit v f scale (pre || decide (s2.length ≠ t.length)) s2
        | _ => parseTermUnit v 0 1 pre s1

/-- The term-summing loop of ParseDuration.  Each term consumes at least its
(nonempty) unit name, so fuel equal to the input length never runs out; the
fuel-0-on-nonempty-input arm is unreachable. -/
def parseDurationLoop : Nat → Nat → List Char → Option Nat
  | _, d, [] => some d
  | 0, _, _ :: _ => none
  | fuel + 1, d, c :: cs =>
    match parseTerm (c :: cs) with
    | none => none
    | some (v, rest) =>
      if 2 ^ 63 < d + v then none
      else parseDurationLoop fuel (d + v) rest

/-- ParseDuration after the optional sign has been consumed. -/
def parseDurationSigned (neg : Bool) (s : List Char) : Option Int :=
  if s = ['0'] then some 0
  else if s = [] then none
  else
    match parseDurationLoop s.length 0 s with
    | none => none
    | some d =>
      if neg then some (-(d : Int))
      else if 2 ^ 63 - 1 < d then none
      else some (d : Int)

/-- Embeds time.ParseDuration (time/format.go): an optional sign followed by
one or more number+unit terms; the result is in nanoseconds (Go
time.Duration = int64 nanoseconds); none is a parse error. -/
def ParseDuration (s0 : List Char) : Option Int :=
  match s0 with
  | [] => parseDurationSigned false []
  | c :: rest =>
    if c = '-' then parseDurationSigned true rest
    else if c = '+' then parseDurationSigned false rest
    else parseDurationSigned false (c :: rest)

/-- unicode.IsSpace restricted to Latin-1 (the full Unicode White_Space set
additionally contains code points above U+00FF, irrelevant here):
tab, LF, VT, FF, CR, space, NEL (133), NBSP (160). -/
def isSpaceRune (c : Char) : Bool :=
  c.toNat == 32 || c.toNat == 9 || c.toNat == 10 || c.toNat == 11 ||
  c.toNat == 12 || c.toNat == 13 || c.toNat == 133 || c.toNat == 160

/-- strings.TrimSpace: drop leading and trailing white space. -/
def trimSpace (s : List Char) : List Char :=
  ((s.dropWhile isSpaceRune).reverse.dropWhile isSpaceRune).reverse

/-- Embeds isAllDigits (psi.go:208-218): nonempty and every rune in '0'-'9'. -/
def isAllDigits (s : List Char) : Bool :=
  match s with
  | [] => false
  | _ => s.all fun r => !(decide (r.toNat < 48) || decide (57 < r.toNat))

/-- The numeric value of a decimal digit string. -/
def digitsToNat (s : List Char) : Nat := s.foldl digitStep 0

/-- const defaultStopTimeout = 30 * time.Second (psi.go:33), in nanoseconds. -/
def defaultStopTimeout : Int := 30 * 1000000000

/-- Embeds parseStopTimeout (psi.go:191-206).  env is the value of
os.Getenv("PSI_STOP_TIMEOUT") (empty when unset); the Bool in the result
records whether the invalid-value warning was logged.  The function is total:
parsing never aborts. -/
def parseStopTimeout (env : List Char) (dflt : Int) : Int × Bool :=
  let val := trimSpace env
  if val = [] then (dflt, false)
  else
    let val2 := if isAllDigits val then val ++ ['s'] else val
    match ParseDuration val2 with
    | none => (dflt, true)
    | some d => if d < 0 then (dflt, true) else (d, false)

/-! ## Helper lemmas -/

theorem countArm_append (a b : List Action) :
    countArm (a ++ b) = countArm a + countArm b := by
  simp [countArm, List.countP_append]

theorem countArm_forward (c : Int) (s : OsSignal) :
    countArm (forwardActions c s) = 0 := by
  cases h : toSyscallSignal s <;>
    simp [forwardActions, h, countArm, isArmAction, List.countP_cons]

/-! ## Claims about role dispatch -/

/-- Claim C4: role dispatch is exactly the function (pid, marker) → role:
a marker equal to the fixed value selects Worker regardless of pid; pid ≠ 1
with the marker not set to that value selects Direct, which runs the entry
function with the non-cancellable background context and exits with its return
value (any value 0-255); pid = 1 otherwise selects Supervisor. -/
theorem claim_c4_role_dispatch (pid : Int) (marker : List Char)
    (submain : GoContext → Int) (n : Int) :
    (marker = childEnvVal → Run pid marker submain = .worker) ∧
    (marker ≠ childEnvVal → pid ≠ 1 →
      Run pid marker submain = .exited (submain background) ∧
      background.cancellable = false) ∧
    (marker ≠ childEnvVal → pid = 1 → Run pid marker submain = .supervisor) ∧
    (marker ≠ childEnvVal → pid ≠ 1 → 0 ≤ n → n ≤ 255 →
      Run pid marker (fun _ => n) = .exited n) := by
  refine ⟨fun h => by simp [Run, h],
          fun h hp => ⟨by simp [Run, h, hp], rfl⟩,
          fun h hp => by simp [Run, h, hp],
          fun h hp _ _ => by simp [Run, h, hp]⟩

/-- Witness for C4 at concrete inputs: marker "1" with pid 1 gives Worker,
pid 5 without marker runs direct and exits with the entry value 200, pid 1
without marker gives Supervisor. -/
theorem claim_c4_witness :
    Run 1 ['1'] (fun _ => 0) = .worker ∧
    Run 5 [] (fun _ => 200) = .exited 200 ∧
    Run 1 [] (fun _ => 0) = .supervisor := by
  refine ⟨(claim_c4_role_dispatch 1 ['1'] (fun _ => 0) 0).1 rfl,
          (claim_c4_role_dispatch 5 [] (fun _ => 200) 200).2.2.2
            (by decide) (by decide) (by decide) (by decide),
          (claim_c4_role_dispatch 1 [] (fun _ => 0) 0).2.2.1 (by decide) rfl⟩

/-- Claim C9: the Worker role is selected only when the marker variable equals
exactly "1"; any other value (for example "true", "0", or empty-but-set, which
os.Getenv cannot distinguish from absent) dispatches as if the marker were
absent, so pid ≠ 1 runs the entry function directly and its return value is
the exit code. -/
theorem claim_c9_marker_exact (pid : Int) (v : List Char)
    (submain : GoContext → Int) (h : v ≠ childEnvVal) :
    (pid ≠ 1 → Run pid v submain = .exited (submain background)) ∧
    (pid = 1 → Run pid v submain = .supervisor) := by
  constructor <;> intro hp <;> simp [Run, h, hp]

/-- Witness for C9 at concrete non-"1" marker values "true", "0" and "". -/
theorem claim_c9_witness :
    Run 7 "true".toList (fun _ => 42) = .exited 42 ∧
    Run 7 "0".toList (fun _ => 42) = .exited 42 ∧
    Run 7 [] (fun _ => 42) = .exited 42 := by
  refine ⟨(claim_c9_marker_exact 7 "true".toList (fun _ => 42) (by decide)).1 (by decide),
          (claim_c9_marker_exact 7 "0".toList (fun _ => 42) (by decide)).1 (by decide),
          (claim_c9_marker_exact 7 [] (fun _ => 42) (by decide)).1 (by decide)⟩

/-! ## Claims about the supervisor event loop -/

/-- Claim C1: in the supervisor event loop, a received SIGCHLD is skipped
entirely (no forwarding, no timer consideration, state unchanged); every other
received signal (signal.Notify delivers syscall.Signal values) produces the
forward-to-process-group action first, unconditionally — an arm-timer action,
when present, comes strictly after it. -/
theorem claim_c1_signal_order (c t : Int) (st : SupState) (n : Int) :
    stepSignal c t st (.sys SIGCHLD) = ([], st) ∧
    (n ≠ SIGCHLD →
      (stepSignal c t st (.sys n)).1.head? = some (.kill (-c) n) ∧
      ∀ a ∈ (stepSignal c t st (.sys n)).1.tail, a = Action.armTimer t) := by
  constructor
  · simp [stepSignal, isSIGCHLD]
  · intro h
    have hch : isSIGCHLD (.sys n) = false := by
      simp [isSIGCHLD, SIGCHLD]
      exact fun hn => absurd hn h
    by_cases ht : isTerminateSignal (.sys n) = true
    · by_cases ha : st.armedOnce = true
      · simp [stepSignal, hch, ht, ha, forwardActions, toSyscallSignal]
      · simp [stepSignal, hch, ht, ha, forwardActions, toSyscallSignal]
    · simp [stepSignal, hch, ht, forwardActions, toSyscallSignal]

/-- Witness for C1: SIGCHLD (17) is skipped; SIGTERM (15) is forwarded first
to the negated child pid. -/
theorem claim_c1_witness :
    stepSignal 9 30 initSupState (.sys 17) = ([], initSupState) ∧
    (stepSignal 9 30 initSupState (.sys 15)).1.head? =
      some (.kill (-9) 15) := by
  exact ⟨(claim_c1_signal_order 9 30 initSupState 15).1,
         ((claim_c1_signal_order 9 30 initSupState 15).2 (by decide)).1⟩

/-- A signal matching the terminate switch is one of 15, 2, 3, 1, hence never
SIGCHLD (17). -/
theorem terminate_not_sigchld (n : Int)
    (ht : isTerminateSignal (.sys n) = true) :
    isSIGCHLD (.sys n) = false := by
  simp [isTerminateSignal, SIGTERM, SIGINT, SIGQUIT, SIGHUP, or_assoc] at ht
  rcases ht with rfl | rfl | rfl | rfl <;> decide

theorem stepSignal_armed (c t : Int) (st : SupState) (s : OsSignal)
    (h : st.armedOnce = true) :
    (stepSignal c t st s).2 = st ∧ countArm (stepSignal c t st s).1 = 0 := by
  by_cases hch : isSIGCHLD s = true
  · simp [stepSignal, hch, countArm]
  · by_cases ht : isTerminateSignal s = true
    · simp [stepSignal, hch, ht, h, countArm_forward]
    · simp [stepSignal, hch, ht, countArm_forward]

theorem runSignals_armed (c t : Int) (l : List OsSignal) :
    ∀ st : SupState, st.armedOnce = true →
      (runSignals c t st l).2 = st ∧ countArm (runSignals c t st l).1 = 0 := by
  induction l with
  | nil => intro st _; exact ⟨rfl, rfl⟩
  | cons s rest ih =>
    intro st h
    have h1 := stepSignal_armed c t st s h
    have h2 := ih (stepSignal c t st s).2 (by rw [h1.1]; exact h)
    refine ⟨?_, ?_⟩
    · show (runSignals c t (stepSignal c t st s).2 rest).2 = st
      rw [h2.1, h1.1]
    · show countArm ((stepSignal c t st s).1 ++
        (runSignals c t (stepSignal c t st s).2 rest).1) = 0
      rw [countArm_append, h1.2, h2.2]

theorem stepSignal_unarmed_cases (c t : Int) (st : SupState) (s : OsSignal)
    (h : st.armedOnce = false) :
    ((stepSignal c t st s).2 = st ∧ countArm (stepSignal c t st s).1 = 0) ∨
    ((stepSignal c t st s).2.armedOnce = true ∧
      countArm (stepSignal c t st s).1 = 1) := by
  by_cases hch : isSIGCHLD s = true
  · left; simp [stepSignal, hch, countArm]
  · by_cases ht : isTerminateSignal s = true
    · right
      have hfst : (stepSignal c t st s).1 =
          forwardActions c s ++ [.armTimer t] := by
        simp [stepSignal, hch, ht, h]
      have hsnd : (stepSignal c t st s).2 =
          ⟨true, startKillTimer t st.killTimer⟩ := by
        simp [stepSignal, hch, ht, h]
      rw [hfst, hsnd, countArm_append, countArm_forward]
      exact ⟨rfl, by simp [countArm, isArmAction]⟩
    · left; simp [stepSignal, hch, ht, countArm_forward]

theorem runSignals_arm_le_one (c t : Int) (l : List OsSignal) :
    ∀ st : SupState, st.armedOnce = false →
      countArm (runSignals c t st l).1 ≤ 1 := by
  induction l with
  | nil => intro st _; simp [runSignals, countArm]
  | cons s rest ih =>
    intro st h
    show countArm ((stepSignal c t st s).1 ++
      (runSignals c t (stepSignal c t st s).2 rest).1) ≤ 1
    rw [countArm_append]
    rcases stepSignal_unarmed_cases c t st s h with ⟨h1, h2⟩ | ⟨h1, h2⟩
    · have h3 := ih (stepSignal c t st s).2 (by rw [h1]; exact h)
      omega
    · have h3 := (runSignals_armed c t rest (stepSignal c t st s).2 h1).2
      omega

/-- Claim C3: the shutdown timer is armed at most once per supervisor
lifetime: over any signal sequence from the initial state the trace holds at
most one arm action; once startOnce has run, any further signal leaves the
state (including the timer) unchanged and produces no arm action; the first
terminate-class signal arms the timer with the configured duration; a later
terminate-class signal is still forwarded to the child's process group but
produces nothing beyond that forward. -/
theorem claim_c3_arm_once (c t : Int) (sigs : List OsSignal) (st : SupState)
    (s : OsSignal) (n : Int) :
    countArm (runSignals c t initSupState sigs).1 ≤ 1 ∧
    (st.armedOnce = true →
      (stepSignal c t st s).2 = st ∧ countArm (stepSignal c t st s).1 = 0) ∧
    (isTerminateSignal (.sys n) = true →
      stepSignal c t initSupState (.sys n) =
        ([.kill (-c) n, .armTimer t], ⟨true, some t⟩)) ∧
    (st.armedOnce = true → isTerminateSignal (.sys n) = true →
      (stepSignal c t st (.sys n)).1 = [.kill (-c) n]) := by
  refine ⟨runSignals_arm_le_one c t sigs initSupState rfl,
          fun h => stepSignal_armed c t st s h,
          fun ht => ?_, fun h ht => ?_⟩
  · simp [stepSignal, terminate_not_sigchld n ht, ht, initSupState,
      forwardActions, toSyscallSignal, startKillTimer]
  · simp [stepSignal, terminate_not_sigchld n ht, ht, h,
      forwardActions, toSyscallSignal]

/-- Witness for C3: two SIGTERMs in a row arm at most once; the first SIGTERM
from the initial state forwards then arms with the configured 30; a SIGTERM in
the armed state only forwards. -/
theorem claim_c3_witness :
    countArm (runSignals 9 30 initSupState [.sys 15, .sys 15]).1 ≤ 1 ∧
    stepSignal 9 30 initSupState (.sys 15) =
      ([.kill (-9) 15, .armTimer 30], ⟨true, some 30⟩) ∧
    (stepSignal 9 30 ⟨true, some 30⟩ (.sys 15)).1 = [.kill (-9) 15] := by
  obtain ⟨h1, _, h3, h4⟩ :=
    claim_c3_arm_once 9 30 [.sys 15, .sys 15] ⟨true, some 30⟩ (.sys 15) 15
  exact ⟨h1, h3 (by decide), h4 rfl (by decide)⟩

/-! ## Claims about the child worker -/

theorem signalHandlerLoop_stable (l : List Int) :
    ∀ ctx : GoContext, ctx.cancelled = true → signalHandlerLoop ctx l = ctx := by
  induction l with
  | nil => intro ctx _; rfl
  | cons s rest ih =>
    intro ctx h
    have hc : cancelCtx ctx = ctx := by
      cases ctx
      simp_all [cancelCtx]
    show signalHandlerLoop (cancelCtx ctx) rest = ctx
    rw [hc]
    exact ih ctx h

theorem signalHandlerLoop_cancels (l : List Int) (hl : l ≠ []) :
    (signalHandlerLoop ⟨true, false⟩ l).cancelled = true := by
  cases l with
  | nil => exact absurd rfl hl
  | cons s rest =>
    show (signalHandlerLoop (cancelCtx ⟨true, false⟩) rest).cancelled = true
    rw [signalHandlerLoop_stable rest (cancelCtx ⟨true, false⟩) rfl]
    rfl

/-- Claim C7: in the Worker role, any nonempty sequence of termination-class
signals (the set subscribed at psi.go:62) cancels the shared token — the
first signal cancels it, and cancellation is idempotent, so subsequent
signals have no additional effect — and when the entry function returns the
worker exits with its return code verbatim. -/
theorem claim_c7_worker_cancel (raised : List Int) (submain : GoContext → Int)
    (n : Int) (ctx : GoContext) (l : List Int) :
    (raised ≠ [] → (∀ s ∈ raised, termNotifySet.contains s = true) →
      (workerContext raised).cancelled = true) ∧
    cancelCtx (cancelCtx ctx) = cancelCtx ctx ∧
    (ctx.cancelled = true → signalHandlerLoop ctx l = ctx) ∧
    runChild (fun _ => n) raised = n ∧
    runChild submain raised = submain (workerContext raised) := by
  refine ⟨fun hne hall => ?_, rfl,
          fun h => signalHandlerLoop_stable l ctx h, rfl, rfl⟩
  have hfilter : notifyFilter raised = raised := by
    simp only [notifyFilter, List.filter_eq_self]
    exact fun s hs => hall s hs
  show (signalHandlerLoop ⟨true, false⟩ (notifyFilter raised)).cancelled = true
  rw [hfilter]
  exact signalHandlerLoop_cancels raised hne

/-- Witness for C7: SIGTERM then SIGINT cancels the worker context, and the
worker exits with the entry function's return code 99 verbatim. -/
theorem claim_c7_witness :
    (workerContext [15, 2]).cancelled = true ∧
    runChild (fun _ => 99) [15, 2] = 99 := by
  obtain ⟨h1, _, _, h4, _⟩ :=
    claim_c7_worker_cancel [15, 2] (fun _ => 99) 99 background []
  exact ⟨h1 (by decide) (by decide), h4⟩

/-! ## Claims about the reaper error policy -/

/-- Claim C6: the reaper's error policy: EINTR retries immediately with no
state change; ECHILD stops and reports the managed child as exited with code
0; any other wait error is retried (after a pause that the embedding treats as
a no-op) and is never fatal. -/
theorem claim_c6_reaper_errors (child : Int) (rest : List WaitEvent) (e : Nat) :
    reapUntilChildExit child (.err .EINTR :: rest) =
      reapUntilChildExit child rest ∧
    reapUntilChildExit child (.err .ECHILD :: rest) = some 0 ∧
    reapUntilChildExit child (.err (.other e) :: rest) =
      reapUntilChildExit child rest := by
  exact ⟨rfl, rfl, rfl⟩

/-- Claim C2: reapUntilChildExit returns the translated outcome of the
managed child and only of the managed child.  For every reap sequence whose
preceding events are neither a collection of the managed child nor an ECHILD
error, the first collection of the managed child's pid stops the loop,
returning the child's exit code when it exited normally, 128 plus the signal
number when it was killed by a signal, and 1 for any other wait status; every
other collected pid before it is discarded. -/
theorem claim_c2_reap_translates (child : Int) (pre : List WaitEvent)
    (ws : Nat) (rest : List WaitEvent)
    (hpre : ∀ e ∈ pre,
      (∀ w, e ≠ WaitEvent.reaped child w) ∧ e ≠ WaitEvent.err WaitErr.ECHILD) :
    reapUntilChildExit child (pre ++ WaitEvent.reaped child ws :: rest) =
      some (if wExited ws then wExitStatus ws
            else if wSignaled ws then 128 + wSignal ws else 1) := by
  induction pre with
  | nil =>
    show reapUntilChildExit child (WaitEvent.reaped child ws :: rest) = _
    simp only [reapUntilChildExit, if_pos rfl]
    split_ifs <;> rfl
  | cons e pre ih =>
    have he := hpre e (List.mem_cons_self e pre)
    have hrest : ∀ x ∈ pre,
        (∀ w, x ≠ WaitEvent.reaped child w) ∧
          x ≠ WaitEvent.err WaitErr.ECHILD :=
      fun x hx => hpre x (List.mem_cons_of_mem e hx)
    cases e with
    | err er =>
      cases er with
      | EINTR => exact ih hrest
      | ECHILD => exact absurd rfl he.2
      | other k => exact ih hrest
    | reaped p w =>
      have hp : ¬(p = child) := fun hpc => he.1 w (by rw [hpc])
      show reapUntilChildExit child
        (WaitEvent.reaped p w :: (pre ++ WaitEvent.reaped child ws :: rest)) = _
      simp only [reapUntilChildExit, if_neg hp]
      exact ih hrest

/-- Witness for C2: an interrupted wait and an unrelated orphan (pid 11) are
passed over, and the managed child (pid 10) exiting normally with status
bits 7<<8 yields exit code 7. -/
theorem claim_c2_witness :
    reapUntilChildExit 10
      ([.err .EINTR, .reaped 11 0] ++ [.reaped 10 1792]) = some 7 := by
  have h := claim_c2_reap_translates 10 [.err .EINTR, .reaped 11 0] 1792 []
    (by
      intro e he
      simp only [List.mem_cons, List.not_mem_nil, or_false] at he
      rcases he with rfl | rfl
      · exact ⟨fun w => by simp, by simp⟩
      · refine ⟨fun w h1 => ?_, by simp⟩
        injection h1 with h2 h3
        exact absurd h2 (by decide))
  rw [h]
  decide

/-! ## Claims about supervisor startup -/

/-- Counterexample to claim C8 as stated: the spawn-failure exit code is the
log.Fatalf code 1, which is not distinct from the indeterminate-wait-status
fallback code 1 (shown here at the concrete stopped wait status 0x7F). -/
theorem claim_c8_counterexample :
    startManagedChild true 42 = .fatal 1 ∧ exitOutcomeStatus 127 = 1 := by
  decide

/-- Claim C8 as amended: if spawning the managed child fails, the supervisor
logs a diagnostic and exits immediately with the non-zero status 1, without
retrying and without cleanup; this code is non-zero but coincides with the
indeterminate-status fallback code 1, so it is not distinct from the codes
used to report the child's outcome. -/
theorem claim_c8_amended (childPID : Int) :
    startManagedChild true childPID = .fatal logFatalExitCode ∧
    logFatalExitCode ≠ 0 ∧
    logFatalExitCode = exitOutcomeStatus 127 := by
  exact ⟨rfl, by decide, by decide⟩

/-! ## Lemmas about duration parsing -/

theorem two_pow_63 : (2 : Nat) ^ 63 = 9223372036854775808 := by norm_num

theorem digitStep_le (x : Nat) (c : Char) : x ≤ digitStep x c := by
  unfold digitStep
  omega

theorem foldl_digitStep_le (ds : List Char) :
    ∀ x : Nat, x ≤ ds.foldl digitStep x := by
  induction ds with
  | nil => intro x; exact le_refl x
  | cons c ds ih =>
    intro x
    exact le_trans (digitStep_le x c) (ih (digitStep x c))

theorem leadingIntAux_digits (ds : List Char) :
    ∀ x : Nat, (∀ c ∈ ds, 48 ≤ c.toNat ∧ c.toNat ≤ 57) →
      ds.foldl digitStep x ≤ 2 ^ 63 / 10 →
      leadingIntAux x (ds ++ ['s']) = some (ds.foldl digitStep x, ['s']) := by
  induction ds with
  | nil =>
    intro x _ _
    have hs : ('s'.toNat < 48 ∨ 57 < 's'.toNat) := by decide
    show leadingIntAux x ['s'] = some (x, ['s'])
    simp [leadingIntAux, hs]
  | cons c ds ih =>
    intro x hd hb
    have hc := hd c (List.mem_cons_self c ds)
    have hfold : (c :: ds).foldl digitStep x = ds.foldl digitStep (digitStep x c) :=
      rfl
    have hmono1 : x ≤ (c :: ds).foldl digitStep x := foldl_digitStep_le (c :: ds) x
    have hmono2 : digitStep x c ≤ ds.foldl digitStep (digitStep x c) :=
      foldl_digitStep_le ds (digitStep x c)
    have hdivle : 2 ^ 63 / 10 ≤ 2 ^ 63 := Nat.div_le_self _ _
    have hnotstop : ¬(c.toNat < 48 ∨ 57 < c.toNat) := by omega
    have hx : ¬(2 ^ 63 / 10 < x) := by omega
    have hy : ¬(2 ^ 63 < digitStep x c) := by omega
    show leadingIntAux x (c :: (ds ++ ['s'])) = _
    simp only [leadingIntAux, if_neg hnotstop, if_neg hx, if_neg hy]
    rw [hfold]
    exact ih (digitStep x c) (fun d hdm => hd d (List.mem_cons_of_mem c hdm))
      (by rw [hfold] at hb; exact hb)

theorem parseTerm_digits (ds : List Char) (hne : ds ≠ [])
    (hd : ∀ c ∈ ds, 48 ≤ c.toNat ∧ c.toNat ≤ 57)
    (hb : ds.foldl digitStep 0 ≤ 9223372036) :
    parseTerm (ds ++ ['s']) =
      some (ds.foldl digitStep 0 * 1000000000, []) := by
  cases ds with
  | nil => exact absurd rfl hne
  | cons c ds2 =>
    have hc := hd c (List.mem_cons_self c ds2)
    have hb2 : (c :: ds2).foldl digitStep 0 ≤ 2 ^ 63 / 10 := by
      rw [two_pow_63]
      omega
    have hlead := leadingIntAux_digits (c :: ds2) 0 hd hb2
    rw [List.cons_append] at hlead
    have hdur : durDigitDot c = true := by
      simp only [durDigitDot, Bool.or_eq_true, beq_iff_eq, Bool.and_eq_true,
        decide_eq_true_eq]
      omega
    have hpre : (decide ((['s'] : List Char).length ≠
        (c :: (ds2 ++ ['s'])).length)) = true := by
      simp
    show parseTerm (c :: (ds2 ++ ['s'])) = _
    simp only [parseTerm, hdur, hlead]
    simp only [List.foldl_cons] at hb ⊢
    have hlt : ¬(9223372036854775808 / 1000000000 <
        List.foldl digitStep (digitStep 0 c) ds2) := by
      have h9 : (9223372036854775808 : Nat) / 1000000000 = 9223372036 := by
        norm_num
      omega
    have htake : List.takeWhile (fun x => !durDigitDot x) ['s'] = ['s'] := by
      decide
    have hdrop : List.dropWhile (fun x => !durDigitDot x) ['s'] =
        ([] : List Char) := by decide
    have humap : unitMap ['s'] = some 1000000000 := by decide
    simp [parseTermUnit, hpre, hlt, htake, hdrop, humap]

theorem ParseDuration_digits (ds : List Char) (hne : ds ≠ [])
    (hd : ∀ c ∈ ds, 48 ≤ c.toNat ∧ c.toNat ≤ 57)
    (hb : ds.foldl digitStep 0 ≤ 9223372036) :
    ParseDuration (ds ++ ['s']) =
      some ((ds.foldl digitStep 0 * 1000000000 : Nat) : Int) := by
  cases ds with
  | nil => exact absurd rfl hne
  | cons c ds2 =>
    have hc := hd c (List.mem_cons_self c ds2)
    have hterm := parseTerm_digits (c :: ds2) hne hd hb
    rw [List.cons_append] at hterm
    have hm : ¬(c = '-') := by
      intro h
      subst h
      revert hc
      decide
    have hp : ¬(c = '+') := by
      intro h
      subst h
      revert hc
      decide
    show ParseDuration (c :: (ds2 ++ ['s'])) = _
    simp only [ParseDuration, if_neg hm, if_neg hp]
    have h0 : ¬(c :: (ds2 ++ ['s']) = ['0']) := by
      intro h
      have h1 := congrArg List.length h
      simp at h1
    have hnil : ¬(c :: (ds2 ++ ['s']) = []) := by simp
    have hfuel : (c :: (ds2 ++ ['s'])).length = ds2.length + 1 + 1 := by simp
    simp only [parseDurationSigned, if_neg h0, if_neg hnil, hfuel]
    have hbound : ¬(2 ^ 63 < 0 + (c :: ds2).foldl digitStep 0 * 1000000000) := by
      rw [two_pow_63]
      omega
    simp only [parseDurationLoop, hterm, if_neg hbound]
    have hbound2 : ¬(2 ^ 63 - 1 < (c :: ds2).foldl digitStep 0 * 1000000000) := by
      rw [two_pow_63]
      omega
    simp only [Bool.false_eq_true, if_false, Nat.zero_add, if_neg hbound2]

theorem isAllDigits_spec (ds : List Char) (h : isAllDigits ds = true) :
    ds ≠ [] ∧ ∀ c ∈ ds, 48 ≤ c.toNat ∧ c.toNat ≤ 57 := by
  cases ds with
  | nil => cases h
  | cons c ds2 =>
    refine ⟨by simp, ?_⟩
    intro d hd
    have hall : ∀ x ∈ c :: ds2,
        (!(decide (x.toNat < 48) || decide (57 < x.toNat))) = true :=
      List.all_eq_true.mp h
    have := hall d hd
    simp only [Bool.not_eq_eq_eq_not, Bool.not_true, Bool.or_eq_false_iff,
      decide_eq_false_iff_not] at this
    omega

theorem digit_not_space (c : Char) (h : 48 ≤ c.toNat ∧ c.toNat ≤ 57) :
    isSpaceRune c = false := by
  simp only [isSpaceRune, Bool.or_eq_false_iff, beq_eq_false_iff_ne, ne_eq]
  omega

theorem dropWhile_append_all {p : Char → Bool} (l1 l2 : List Char)
    (h : ∀ c ∈ l1, p c = true) :
    (l1 ++ l2).dropWhile p = l2.dropWhile p := by
  induction l1 with
  | nil => rfl
  | cons c l1 ih =>
    have hc := h c (List.mem_cons_self c l1)
    simp only [List.cons_append, List.dropWhile_cons, hc, if_pos]
    exact ih fun d hd => h d (List.mem_cons_of_mem c hd)

theorem dropWhile_of_head_false {p : Char → Bool} (c : Char) (l : List Char)
    (h : p c = false) : (c :: l).dropWhile p = c :: l := by
  simp [List.dropWhile_cons, h]

theorem dropWhile_eq_nil_of_all {p : Char → Bool} (l : List Char)
    (h : ∀ c ∈ l, p c = true) : l.dropWhile p = [] := by
  induction l with
  | nil => rfl
  | cons c l ih =>
    simp only [List.dropWhile_cons, h c (List.mem_cons_self c l), if_pos]
    exact ih fun d hd => h d (List.mem_cons_of_mem c hd)

theorem trimSpace_sandwich (ws1 ds ws2 : List Char)
    (h1 : ∀ c ∈ ws1, isSpaceRune c = true)
    (h2 : ∀ c ∈ ws2, isSpaceRune c = true)
    (hne : ds ≠ [])
    (hnd : ∀ c ∈ ds, isSpaceRune c = false) :
    trimSpace (ws1 ++ ds ++ ws2) = ds := by
  unfold trimSpace
  have e1 : (ws1 ++ ds ++ ws2).dropWhile isSpaceRune = ds ++ ws2 := by
    rw [List.append_assoc, dropWhile_append_all ws1 (ds ++ ws2) h1]
    cases ds with
    | nil => exact absurd rfl hne
    | cons c t =>
      rw [List.cons_append]
      exact dropWhile_of_head_false c (t ++ ws2)
        (hnd c (List.mem_cons_self c t))
  rw [e1]
  have e2 : (ds ++ ws2).reverse.dropWhile isSpaceRune = ds.reverse := by
    rw [List.reverse_append, dropWhile_append_all ws2.reverse ds.reverse
      (fun c hc => h2 c (List.mem_reverse.mp hc))]
    cases hrev : ds.reverse with
    | nil => exact absurd (List.reverse_eq_nil_iff.mp hrev) hne
    | cons c t =>
      have hcm : c ∈ ds :=
        List.mem_reverse.mp (hrev ▸ List.mem_cons_self c t)
      exact dropWhile_of_head_false c t (hnd c hcm)
  rw [e2, List.reverse_reverse]

theorem trimSpace_all_space (s : List Char)
    (h : ∀ c ∈ s, isSpaceRune c = true) : trimSpace s = [] := by
  unfold trimSpace
  rw [dropWhile_eq_nil_of_all s h]
  rfl

/-- Shared core of C5 and C10: an all-digits value, possibly surrounded by
white space, whose value fits the int64 nanosecond range parses to that many
seconds, with no warning. -/
theorem parseStopTimeout_digits_ws (ws1 ds ws2 : List Char) (dflt : Int)
    (h1 : ∀ c ∈ ws1, isSpaceRune c = true)
    (h2 : ∀ c ∈ ws2, isSpaceRune c = true)
    (hall : isAllDigits ds = true) (hb : digitsToNat ds ≤ 9223372036) :
    parseStopTimeout (ws1 ++ ds ++ ws2) dflt =
      (((digitsToNat ds * 1000000000 : Nat) : Int), false) := by
  obtain ⟨hne, hd⟩ := isAllDigits_spec ds hall
  have htrim : trimSpace (ws1 ++ ds ++ ws2) = ds :=
    trimSpace_sandwich ws1 ds ws2 h1 h2 hne
      (fun c hc => digit_not_space c (hd c hc))
  have hpd := ParseDuration_digits ds hne hd hb
  have hnonneg : ¬(((digitsToNat ds * 1000000000 : Nat) : Int) < 0) := by
    simp
  simp only [parseStopTimeout, htrim, if_neg hne, hall, if_pos, if_true,
    digitsToNat] at *
  simp only [hpd, if_neg hnonneg]

/-! ## Claims about stop-timeout parsing -/

/-- Counterexample to claim C5 as stated: "9223372037" consists only of
decimal digits, but 9223372037 seconds overflows the signed 64-bit nanosecond
count, so the code falls back to the default with a warning instead of
returning that many seconds. -/
theorem claim_c5_counterexample :
    isAllDigits "9223372037".toList = true ∧
    parseStopTimeout "9223372037".toList defaultStopTimeout =
      (defaultStopTimeout, true) ∧
    defaultStopTimeout ≠ 9223372037 * 1000000000 := by
  decide

/-- Claim C5 as amended: stop-timeout parsing is total (the embedding is a
total function) and: empty value gives the default with no warning; a value of
decimal digits not exceeding 9223372036 (beyond which the nanosecond count
overflows int64 and the value fails to parse) gives that many seconds;
"1m15s" parses as a composite duration expression to 75 seconds; a value that
fails to parse ("bogus") or parses negative ("-2s") gives a warning and the
default. -/
theorem claim_c5_stop_timeout (ds : List Char) (dflt : Int) :
    parseStopTimeout [] dflt = (dflt, false) ∧
    (isAllDigits ds = true → digitsToNat ds ≤ 9223372036 →
      parseStopTimeout ds dflt =
        (((digitsToNat ds * 1000000000 : Nat) : Int), false)) ∧
    parseStopTimeout "1m15s".toList defaultStopTimeout =
      (75 * 1000000000, false) ∧
    parseStopTimeout "bogus".toList defaultStopTimeout =
      (defaultStopTimeout, true) ∧
    parseStopTimeout "-2s".toList defaultStopTimeout =
      (defaultStopTimeout, true) := by
  refine ⟨rfl, fun hall hb => ?_, by decide, by decide, by decide⟩
  have h := parseStopTimeout_digits_ws [] ds [] dflt
    (by simp) (by simp) hall hb
  simpa using h

/-- Witness for C5: "12" parses to 12 seconds with no warning. -/
theorem claim_c5_witness :
    parseStopTimeout "12".toList defaultStopTimeout =
      (12 * 1000000000, false) := by
  have h := (claim_c5_stop_timeout "12".toList defaultStopTimeout).2.1
    (by decide) (by decide)
  rw [h]
  decide

/-- Counterexample to claim C10 as stated: " 9223372037 " is decimal digits
surrounded by whitespace, but the result is the default with a warning, not
that many seconds, because 9223372037 seconds overflows the int64 nanosecond
count. -/
theorem claim_c10_counterexample :
    parseStopTimeout " 9223372037 ".toList defaultStopTimeout =
      (defaultStopTimeout, true) ∧
    defaultStopTimeout ≠ 9223372037 * 1000000000 := by
  decide

/-- Claim C10 as amended: stop-timeout parsing trims leading and trailing
whitespace before classifying: digits surrounded by whitespace give that many
seconds (provided, as the overflow counterexample forces, the value does not
exceed 9223372036), and a whitespace-only value is treated as empty, yielding
the default without a warning. -/
theorem claim_c10_trim (ws1 ds ws2 s : List Char) (dflt : Int) :
    ((∀ c ∈ ws1, isSpaceRune c = true) → (∀ c ∈ ws2, isSpaceRune c = true) →
      isAllDigits ds = true → digitsToNat ds ≤ 9223372036 →
      parseStopTimeout (ws1 ++ ds ++ ws2) dflt =
        (((digitsToNat ds * 1000000000 : Nat) : Int), false)) ∧
    ((∀ c ∈ s, isSpaceRune c = true) →
      parseStopTimeout s dflt = (dflt, false)) := by
  constructor
  · exact fun h1 h2 hall hb =>
      parseStopTimeout_digits_ws ws1 ds ws2 dflt h1 h2 hall hb
  · intro h
    have htrim := trimSpace_all_space s h
    simp [parseStopTimeout, htrim]

/-- Witness for C10: " 12 " (digits surrounded by spaces) gives 12 seconds
with no warning, and a whitespace-only value gives the default without a
warning. -/
theorem claim_c10_witness :
    parseStopTimeout ([' '] ++ "12".toList ++ [' ']) defaultStopTimeout =
      (12 * 1000000000, false) ∧
    parseStopTimeout "   ".toList defaultStopTimeout =
      (defaultStopTimeout, false) := by
  obtain ⟨h1, h2⟩ :=
    claim_c10_trim [' '] "12".toList [' '] "   ".toList defaultStopTimeout
  constructor
  · rw [h1 (by decide) (by decide) (by decide) (by decide)]
    decide
  · exact h2 (by decide)

end Psi
